import Mathlib

/-!
Shallow embedding of the balena-os/migrator networking analyzer
(`networking-analyzer.ts`, `wifi-profile-reader.ts` and the
`MigratorCommand.validateAnalyzer` helper), with theorems settling the
frozen claims about it.

Strings coming back from external OS commands (Powershell / netsh output)
are inputs to the embedded parsing functions; effectful calls whose results
are parsed elsewhere in the same file are threaded explicitly.  Machine
integers do not occur: all positions and counters are `Nat`.
-/

namespace Migrator

/-- Describes a column in a Powershell table: `interface Column` of
`networking-analyzer.ts`.  `startPos`/`endPos` are offsets into a line. -/
structure Column where
  title : String
  startPos : Nat
  endPos : Nat
deriving DecidableEq, Repr

instance : Inhabited Column := ⟨⟨"", 0, 0⟩⟩

/-- Whether position `p` starts an occurrence of the two-character pattern
`' -'` (space followed by dash) in `line`; this is what
`line.indexOf(' -', pos)` searches for. -/
def boundaryAt (line : List Char) (p : Nat) : Bool :=
  line.get? p == some ' ' && line.get? (p + 1) == some '-'

/-- Scan of `findBoundary`, fueled so the kernel can evaluate it; `fuel` is
kept equal to `line.length - pos`. -/
def findFrom (line : List Char) : Nat → Nat → Option Nat
  | 0, _ => none
  | fuel + 1, pos => if boundaryAt line pos then some pos else findFrom line fuel (pos + 1)

/-- `line.indexOf(' -', pos)`: position of the first space-dash occurrence at
or after `pos`, `none` standing for JavaScript's `-1`. -/
def findBoundary (line : List Char) (pos : Nat) : Option Nat :=
  findFrom line (line.length - pos) pos

/-- Fueled scan collecting boundary positions; `fuel` is kept equal to
`line.length - pos`. -/
def boundsFrom (line : List Char) : Nat → Nat → List Nat
  | 0, _ => []
  | fuel + 1, pos =>
    if boundaryAt line pos then pos :: boundsFrom line fuel (pos + 1)
    else boundsFrom line fuel (pos + 1)

/-- All space-dash boundary positions of `line` at or after `pos`, in
increasing order.  Specification-side view of the scan in `readColumns`. -/
def boundariesFrom (line : List Char) (pos : Nat) : List Nat :=
  boundsFrom line (line.length - pos) pos

/-- Loop body of `readColumns` (networking-analyzer.ts lines 169-189).
State `linePos` is the scan position, `i` the loop index.  The returned list
is the `columns` array as the caller sees it after the call — the TypeScript
function mutates the array in place — and the `Option String` is the thrown
`Error` message, if any: on a throw, columns already processed keep their
updated spans and the column being processed keeps its updated `startPos`. -/
def readColumnsGo (line : List Char) : Nat → Nat → List Column → List Column × Option String
  | _, _, [] => ([], none)
  | linePos, i, col :: rest =>
    let col1 : Column := { col with startPos := linePos }
    match findBoundary line linePos with
    | none =>
      if rest.isEmpty then
        ([{ col1 with endPos := line.length }], none)
      else
        (col1 :: rest, some ("readColumns: Only found " ++ toString i ++ " columns."))
    | some p =>
      let col2 : Column := { col1 with endPos := p }
      let r := readColumnsGo line (p + 1) (i + 1) rest
      (col2 :: r.1, r.2)

/-- `readColumns(columns, line)`: computes column spans from the header
separator line.  First component: the caller-visible `columns` array after
the call (or after the throw); second component: the thrown error message,
`none` when the call returns normally. -/
def readColumns (columns : List Column) (line : String) : List Column × Option String :=
  readColumnsGo line.data 0 0 columns

/-- The `[start, end)` spans of a list of columns. -/
def spans (cols : List Column) : List (Nat × Nat) :=
  cols.map fun c => (c.startPos, c.endPos)

/-- Expected spans produced by a successful `readColumns` scan that starts at
`pos`, consumes the boundary positions `bs` and closes the last column at
`len`. -/
def spansOf (pos : Nat) (bs : List Nat) (len : Nat) : List (Nat × Nat) :=
  match bs with
  | [] => [(pos, len)]
  | b :: rest => (pos, b) :: spansOf (b + 1) rest len

/-- The `columns` array as every caller of `readColumns` builds it: fresh
columns with both positions zero, one per requested column name. -/
def freshColumns (titles : List String) : List Column :=
  titles.map fun t => ⟨t, 0, 0⟩

/-- Reading of the contiguity/coverage part of the spec claim: the spans
start at 0, each span starts where the previous one ends, and the last span
ends at the line length. -/
def contiguousCover (sp : List (Nat × Nat)) (len : Nat) : Prop :=
  sp.head?.map Prod.fst = some 0 ∧
  sp.getLast?.map Prod.snd = some len ∧
  List.Chain' (fun a b : Nat × Nat => a.2 = b.1) sp

/-- The claim, as stated, at one input: if the separator line has at least
N-1 space-dash occurrences, `readColumns` succeeds with N spans that tile
the whole line. -/
def claimTabularContiguous (titles : List String) (line : String) : Prop :=
  titles.length - 1 ≤ (boundariesFrom line.data 0).length →
    (readColumns (freshColumns titles) line).2 = none ∧
    (readColumns (freshColumns titles) line).1.length = titles.length ∧
    contiguousCover (spans (readColumns (freshColumns titles) line).1) line.data.length

/-! ## Data model: profiles and connections -/

/-- `migrator.WifiAuthType` values used by this repository. -/
inductive WifiAuthType where
  | NONE
  | WPA2_PSK
  | WPA3_SAE
deriving DecidableEq, Repr

/-- `interface ConnectionProfile` of `networking-analyzer.ts`. -/
structure ConnectionProfile where
  name : String
  wifiSsid : String
  wifiAuthType : WifiAuthType
  wifiKey : String
  ifaceId : String
  isConnected : Bool
deriving DecidableEq, Repr

/-- `interface NetConnectivity` of `networking-analyzer.ts`. -/
structure NetConnectivity where
  ifaceType : String
  ifaceId : String
  ifaceName : String
  deviceId : String
  name : String
  hasIpv4 : Bool
  hasIpv6 : Bool
  ipAddress : String
  isManualAddress : Bool
deriving DecidableEq, Repr

/-! ## The connectivity verifier: `Analyzer.testApiConnectivity`

`readIpAddress` and `pingApi` perform I/O (a Powershell query and an HTTPS
request).  They are passed in as oracles: `resolve c` is the
`(ipAddress, isManualAddress)` pair the connection holds after
`readIpAddress(c)` returns, and `ping c` is whether `pingApi(c)` resolves to
`true`.  Both depend only on the connection and the (fixed) OS and network
state, which is what the oracles model. -/

/-- The connection object after `readIpAddress` updated it. -/
def resolveConn (resolve : NetConnectivity → String × Bool) (c : NetConnectivity) :
    NetConnectivity :=
  { c with ipAddress := (resolve c).1, isManualAddress := (resolve c).2 }

/-- Observable steps the verifier loop takes, in order: an address
resolution (`readIpAddress` call), the console diagnostic for a skipped
manual address, and a probe (`pingApi` call). -/
inductive VerifierEvent where
  | resolved (c : NetConnectivity)
  | manualSkip (c : NetConnectivity)
  | pinged (c : NetConnectivity)
deriving DecidableEq, Repr

/-- The connection an event concerns. -/
def VerifierEvent.conn : VerifierEvent → NetConnectivity
  | .resolved c => c
  | .manualSkip c => c
  | .pinged c => c

/-- `Analyzer.testApiConnectivity` (networking-analyzer.ts lines 277-303),
iterating `connMap.values()` in insertion order.  Returns the trace of
verifier events together with the returned connection (`none` for the
TypeScript `null`).  `profiles` is the analyzer's `this.profiles`. -/
def testApiConnectivity (resolve : NetConnectivity → String × Bool)
    (ping : NetConnectivity → Bool) (profiles : List ConnectionProfile) :
    List NetConnectivity → List VerifierEvent × Option NetConnectivity
  | [] => ([], none)
  | c :: rest =>
    if c.hasIpv4 || c.hasIpv6 then
      let c1 := resolveConn resolve c
      if c1.ipAddress = "" then
        let r := testApiConnectivity resolve ping profiles rest
        (.resolved c :: r.1, r.2)
      else if c1.isManualAddress then
        let r := testApiConnectivity resolve ping profiles rest
        (.resolved c :: .manualSkip c1 :: r.1, r.2)
      else if (profiles.find? fun p => p.ifaceId == c.ifaceId && p.isConnected).isNone then
        let r := testApiConnectivity resolve ping profiles rest
        (.resolved c :: r.1, r.2)
      else if ping c1 then
        ([.resolved c, .pinged c1], some c1)
      else
        let r := testApiConnectivity resolve ping profiles rest
        (.resolved c :: .pinged c1 :: r.1, r.2)
    else
      testApiConnectivity resolve ping profiles rest

/-- The per-record success condition of the verifier loop: both reachability
flags are consulted first; then the resolved address must be non-empty and
not manually assigned, a connected profile must exist for the interface,
and the probe must succeed. -/
def connVerified (resolve : NetConnectivity → String × Bool)
    (ping : NetConnectivity → Bool) (profiles : List ConnectionProfile)
    (c : NetConnectivity) : Bool :=
  (c.hasIpv4 || c.hasIpv6) &&
    (let c1 := resolveConn resolve c
     !(c1.ipAddress == "") && !c1.isManualAddress &&
       (profiles.find? fun p => p.ifaceId == c.ifaceId && p.isConnected).isSome &&
       ping c1)

/-- The events the verifier loop emits while handling one connection,
whatever the probe outcome. -/
def connEvents (resolve : NetConnectivity → String × Bool)
    (profiles : List ConnectionProfile) (c : NetConnectivity) : List VerifierEvent :=
  if c.hasIpv4 || c.hasIpv6 then
    if (resolveConn resolve c).ipAddress = "" then [.resolved c]
    else if (resolveConn resolve c).isManualAddress then
      [.resolved c, .manualSkip (resolveConn resolve c)]
    else if (profiles.find? fun p => p.ifaceId == c.ifaceId && p.isConnected).isNone then
      [.resolved c]
    else [.resolved c, .pinged (resolveConn resolve c)]
  else []

/-! ## `MigratorCommand.validateAnalyzer` -/

/-- JavaScript string `<` on the underlying character sequences
(lexicographic, shorter prefix first). -/
def jsStrLtChars : List Char → List Char → Bool
  | [], [] => false
  | [], _ :: _ => true
  | _ :: _, [] => false
  | a :: as, b :: bs =>
    if a.toNat < b.toNat then true
    else if b.toNat < a.toNat then false
    else jsStrLtChars as bs

/-- `a.name < b.name` of the sort comparator in `validateAnalyzer`. -/
def nameLt (a b : ConnectionProfile) : Bool :=
  jsStrLtChars a.name.data b.name.data

/-- Stable insertion of `x` in front of the first element not below it. -/
def insertSortedByName (x : ConnectionProfile) :
    List ConnectionProfile → List ConnectionProfile
  | [] => [x]
  | h :: t => if nameLt h x then h :: insertSortedByName x t else x :: h :: t

/-- `profiles.sort((a, b) => (a.name < b.name) ? -1 : (a.name == b.name) ? 0 : 1)`:
JavaScript's `Array.prototype.sort` is stable, so its result is the unique
by-name sorting that keeps equal names in their original order, which this
insertion sort computes. -/
def sortByName : List ConnectionProfile → List ConnectionProfile
  | [] => []
  | x :: rest => insertSortedByName x (sortByName rest)

/-- The deduplication loop of `validateAnalyzer` (lines 674-685): walking the
sorted list with `lastName`/`seq` state, renaming a profile whose name equals
`lastName` to `name + (seq+1)`; `lastName` is only updated when the names
differ. -/
def dedupNamesGo (lastName : String) (seq : Nat) :
    List ConnectionProfile → List ConnectionProfile
  | [] => []
  | p :: rest =>
    if p.name == lastName then
      { p with name := p.name ++ toString (seq + 1) } ::
        dedupNamesGo lastName (seq + 1) rest
    else
      p :: dedupNamesGo p.name 0 rest

/-- The deduplication pass entered with `lastName = ''`, `seq = 0`. -/
def dedupNames (l : List ConnectionProfile) : List ConnectionProfile :=
  dedupNamesGo "" 0 l

/-- Result of `MigratorCommand.validateAnalyzer`: either a thrown error
message or the returned profile list. -/
inductive ValidateResult where
  | thrown (msg : String)
  | ok (profiles : List ConnectionProfile)
deriving DecidableEq, Repr

/-- `MigratorCommand.validateAnalyzer` (command module, lines 653-688).
`analyzerProfiles` is `analyzer.getProfiles()`; the connectivity test runs
against the analyzer's full profile list while the returned list is first
filtered to profiles whose `wifiSsid` is truthy (non-empty), then sorted by
name and deduplicated. -/
def validateAnalyzer (resolve : NetConnectivity → String × Bool)
    (ping : NetConnectivity → Bool) (analyzerProfiles : List ConnectionProfile)
    (conns : List NetConnectivity) : ValidateResult :=
  let profiles := analyzerProfiles.filter fun p => !(p.wifiSsid == "")
  match (testApiConnectivity resolve ping analyzerProfiles conns).2 with
  | none => .thrown "balena API not reachable from any connected interface"
  | some connection =>
    match analyzerProfiles.find? fun p => p.ifaceId == connection.ifaceId && p.isConnected with
    | none => .thrown ("Can't find profile for connection " ++ connection.name)
    | some _ => .ok (dedupNames (sortByName profiles))

/-! ## `Analyzer.run` and its state

`run()` reads four external sources through Powershell/netsh:
the adapter table and the connection-profile table (which together build
`connMap`), the per-interface stored WiFi profile lists, and the
`netsh wlan show interfaces` output (whose parse yields a sequence of
GUID/SSID pairs).  Those query results are deterministic functions of the
surrounding OS state, which `OsState` models; `run()` itself is embedded
faithfully on top of them. -/

/-- The OS state `run()` queries: the connection map that
`readNetAdapters`/`readNetConnections` build (in insertion order), the
stored profiles `collectProfiles` returns for an interface name, and the
GUID/SSID pairs the `readWlanInterfaces` text scan extracts. -/
structure OsState where
  connMap : List NetConnectivity
  wifiProfilesFor : String → List ConnectionProfile
  wlanPairs : List (String × String)

/-- Mutation performed by the profile match in `readWlanInterfaces`: the
first profile with this interface and SSID gets `isConnected := true`. -/
def markFirstProfile (ifaceId ssid : String) :
    List ConnectionProfile → List ConnectionProfile
  | [] => []
  | p :: rest =>
    if p.ifaceId == ifaceId && p.wifiSsid == ssid then
      { p with isConnected := true } :: rest
    else p :: markFirstProfile ifaceId ssid rest

/-- Inner connection loop of `readWlanInterfaces` for one GUID/SSID pair:
find a wifi connection with this GUID; if its profile is found, mark it and
break, otherwise keep scanning connections. -/
def wlanMatchStep (profiles : List ConnectionProfile) (guid ssid : String) :
    List NetConnectivity → List ConnectionProfile
  | [] => profiles
  | conn :: rest =>
    if conn.ifaceType == "wifi" && conn.deviceId == guid then
      if (profiles.find? fun p => p.ifaceId == conn.ifaceId && p.wifiSsid == ssid).isSome then
        markFirstProfile conn.ifaceId ssid profiles
      else wlanMatchStep profiles guid ssid rest
    else wlanMatchStep profiles guid ssid rest

/-- `readWlanInterfaces`, applied to the GUID/SSID pairs its text scan
produced: each pair marks at most one profile as connected. -/
def readWlanInterfaces (pairs : List (String × String))
    (conns : List NetConnectivity) (profiles : List ConnectionProfile) :
    List ConnectionProfile :=
  pairs.foldl (fun ps pr => wlanMatchStep ps pr.1 pr.2 conns) profiles

/-- The profile `run()` synthesizes for an 802.3 ethernet connection
(networking-analyzer.ts lines 251-257). -/
def ethProfileOf (c : NetConnectivity) : ConnectionProfile :=
  ⟨c.name, "", .NONE, "", c.ifaceId, true⟩

/-- The `Analyzer` instance state touched by `run()`: `connMap` and
`profiles`. -/
structure AnalyzerState where
  connMap : List NetConnectivity
  profiles : List ConnectionProfile
deriving DecidableEq, Repr

/-- A freshly constructed `Analyzer`. -/
def initAnalyzer : AnalyzerState := ⟨[], []⟩

/-- The wifi profile collection loop of `run()`: for each wifi connection of
the map, in order, the collected profiles with `ifaceId` overwritten. -/
def collectWifiProfiles (env : OsState) (conns : List NetConnectivity) :
    List ConnectionProfile :=
  conns.flatMap fun conn =>
    if conn.ifaceType == "wifi" then
      (env.wifiProfilesFor conn.ifaceName).map fun p => { p with ifaceId := conn.ifaceId }
    else []

/-- `Analyzer.run()` (networking-analyzer.ts lines 229-258): rebuilds
`connMap` from scratch, appends the collected wifi profiles to
`this.profiles` (which is never cleared), lets `readWlanInterfaces` mark
connected wifi profiles, then appends one synthesized profile per ethernet
connection. -/
def runAnalyzer (env : OsState) (includeWifi : Bool) (st : AnalyzerState) :
    AnalyzerState :=
  let cm := env.connMap
  let profiles1 :=
    if includeWifi then
      readWlanInterfaces env.wlanPairs cm (st.profiles ++ collectWifiProfiles env cm)
    else st.profiles
  { connMap := cm
    profiles := profiles1 ++ (cm.filter fun c => c.ifaceType == "ethernet").map ethProfileOf }

/-- `Analyzer.getProfiles()`. -/
def getProfiles (st : AnalyzerState) : List ConnectionProfile :=
  st.profiles

/-- Everything of a profile except the `isConnected` flag, which is the one
field the wlan matching pass may flip in place. -/
def profileData (p : ConnectionProfile) : String × String × WifiAuthType × String × String :=
  (p.name, p.wifiSsid, p.wifiAuthType, p.wifiKey, p.ifaceId)

/-! ## `ProfileReader.readProfiles` (wifi-profile-reader.ts lines 819-889) -/

/-- `KEYLESS_AUTH_MODES` of wifi-profile-reader.ts: authentication modes
that need no passphrase. -/
def KEYLESS_AUTH_MODES : List String := ["open"]

/-- `line.substring(startPos, endPos).trim()`.  All spans this repository
slices with satisfy `startPos ≤ endPos` (they come from a successful
`readColumns`), so the argument-swapping case of JavaScript `substring`
does not arise. -/
def substrTrim (line : String) (s e : Nat) : String :=
  String.mk ((((line.data.drop s).take (e - s)).dropWhile
    Char.isWhitespace).reverse.dropWhile Char.isWhitespace).reverse

/-- Whether `pat` occurs as a contiguous subsequence: `indexOf(pat) >= 0`. -/
def containsSub (pat : List Char) : List Char → Bool
  | [] => pat.isEmpty
  | c :: t => pat.isPrefixOf (c :: t) || containsSub pat t

/-- The `switch (auth)` of `readProfiles`: the three supported
authentication strings and their mapped `WifiAuthType`; `none` is the
`default` branch that rejects the profile. -/
def authTypeOf : String → Option WifiAuthType
  | "open" => some .NONE
  | "WPA2PSK" => some .WPA2_PSK
  | "WPA3SAE" => some .WPA3_SAE
  | _ => none

/-- What the row loop of `readProfiles` does with one data line. -/
inductive RowOutcome where
  | blank
  | unsupported (name auth : String)
  | missingKey (name auth : String)
  | accepted (p : ConnectionProfile)
deriving DecidableEq, Repr

/-- `line.substring(columns[i].startPos, columns[i].endPos).trim()`. -/
def colText (cols : List Column) (i : Nat) (line : String) : String :=
  substrTrim line (cols.getD i default).startPos (cols.getD i default).endPos

/-- One iteration of the row loop of `readProfiles`, for a line read after
the header separator.  Columns 0/2/4 are `ProfileName`, `Authentication`,
`Password` (`columnNames.indexOf` on the fixed list).  The TypeScript
profile literal carries no `isConnected` field — at runtime it is
`undefined`, i.e. falsy — modelled as `false`. -/
def parseProfileRow (cols : List Column) (line : String) : RowOutcome :=
  if colText cols 0 line == "" then .blank
  else
    match authTypeOf (colText cols 2 line) with
    | none => .unsupported (colText cols 0 line) (colText cols 2 line)
    | some authType =>
      if colText cols 4 line == "" && !(KEYLESS_AUTH_MODES.contains (colText cols 2 line)) then
        .missingKey (colText cols 0 line) (colText cols 2 line)
      else
        .accepted { name := colText cols 0 line, wifiSsid := "", wifiAuthType := authType,
                    wifiKey := colText cols 4 line, ifaceId := "", isConnected := false }

/-- `profileMap.set(profile.name, profile)` on the insertion-ordered
JavaScript `Map`, modelled as an association list: replace in place if the
key exists, else append. -/
def mapSet (m : List (String × ConnectionProfile)) (k : String) (v : ConnectionProfile) :
    List (String × ConnectionProfile) :=
  if m.any fun e => e.1 == k then
    m.map fun e => if e.1 == k then (k, v) else e
  else m ++ [(k, v)]

/-- The expected columns of the `Get-WiFiProfile -ClearKey` table. -/
def profileColumnNames : List String :=
  ["ProfileName", "ConnectionMode", "Authentication", "Encryption", "Password"]

/-- The line loop of `readProfiles`.  While `columns[0].endPos` is 0 the
header separator has not been located: lines without a `-----` run are
skipped and a line with one goes through `readColumns` (whose thrown error
propagates out of `readProfiles`, modelled as `.error`).  Afterwards each
line is a data row; rejected rows produce a console/debug report (collected
in `logs`) and leave the map unchanged, and the loop continues. -/
def readProfilesGo (cols : List Column) (m : List (String × ConnectionProfile))
    (logs : List String) :
    List String → Except String (List (String × ConnectionProfile) × List String)
  | [] => .ok (m, logs)
  | line :: rest =>
    if (cols.getD 0 default).endPos == 0 then
      if containsSub "-----".data line.data then
        match readColumns cols line with
        | (cols', none) => readProfilesGo cols' m logs rest
        | (_, some e) => .error e
      else readProfilesGo cols m logs rest
    else
      match parseProfileRow cols line with
      | .blank => readProfilesGo cols m logs rest
      | .unsupported name auth =>
        readProfilesGo cols m
          (logs ++ ["WiFi profile " ++ name ++ " with auth " ++ auth ++ " not supported"]) rest
      | .missingKey name auth =>
        readProfilesGo cols m
          (logs ++ ["Rejected WiFi profile " ++ name ++ " with auth " ++ auth ++
            " but no passphrase"]) rest
      | .accepted p => readProfilesGo cols (mapSet m p.name p) logs rest

/-- Accumulating scan behind `splitLines`. -/
def splitLinesGo (acc : List Char) : List Char → List String
  | [] => [String.mk acc.reverse]
  | c :: rest =>
    if c = '\n' then String.mk acc.reverse :: splitLinesGo [] rest
    else splitLinesGo (c :: acc) rest

/-- `listText.split('\n')`: the segments between newline characters,
including a final empty segment when the text ends with a newline. -/
def splitLines (s : String) : List String := splitLinesGo [] s.data

/-- `ProfileReader.readProfiles`: parse the `Get-WiFiProfile -ClearKey`
output into the profile map (with the reports issued along the way). -/
def readProfiles (listText : String) :
    Except String (List (String × ConnectionProfile) × List String) :=
  readProfilesGo (freshColumns profileColumnNames) [] [] (splitLines listText)

/-- The `Get-WiFiProfile -ClearKey` table used by the witness: one WPA2
profile, one WEP profile (unsupported kind), one WPA2 profile without a
passphrase, one open profile. -/
def sampleWifiTable : String :=
  "Profile  ConnMode Auth     Encr     Password\n" ++
  "-------- -------- -------- -------- --------\n" ++
  "home1    auto     WPA2PSK  AES      secret12\n" ++
  "old2     auto     WEP      AES      k2      \n" ++
  "nokey3   auto     WPA2PSK  AES              \n" ++
  "open4    auto     open     none             \n"

/-- The columns of that table, as `readColumns` resolves them. -/
def sampleWifiCols : List Column :=
  [⟨"ProfileName", 0, 8⟩, ⟨"ConnectionMode", 9, 17⟩, ⟨"Authentication", 18, 26⟩,
   ⟨"Encryption", 27, 35⟩, ⟨"Password", 36, 44⟩]

/-! ## Sample data for witnesses -/

/-- A connected WiFi profile on interface 9, as discovered on a typical
machine. -/
def sampleProfile : ConnectionProfile :=
  ⟨"gal47lows", "gal47lows", .WPA2_PSK, "pass", "9", true⟩

/-- The wifi connection for interface 9, IPv4 only. -/
def sampleConn : NetConnectivity :=
  ⟨"wifi", "9", "Wi-Fi", "99D15E59", "gal47lows", true, false, "", false⟩

/-- Address resolution answering a DHCP-assigned IPv4 address. -/
def sampleResolve : NetConnectivity → String × Bool := fun _ => ("192.168.1.217", false)

/-- Address resolution answering a manually assigned address. -/
def sampleManualResolve : NetConnectivity → String × Bool := fun _ => ("10.0.0.5", true)

/-- A probe that always reaches the API. -/
def samplePingTrue : NetConnectivity → Bool := fun _ => true

/-- An ethernet connection with a working IPv4 address, used by witnesses. -/
def ethConn : NetConnectivity :=
  ⟨"ethernet", "13", "Ethernet", "C79407AC", "Office", true, false, "", false⟩

/-- The OS state of a machine with that single wired connection. -/
def sampleOs : OsState := ⟨[ethConn], fun _ => [], []⟩

/-! ## Theorems -/

theorem findBoundary_step (line : List Char) (pos : Nat) :
    findBoundary line pos =
      if pos < line.length then
        if boundaryAt line pos then some pos else findBoundary line (pos + 1)
      else none := by
  unfold findBoundary
  by_cases h : pos < line.length
  · have hfuel : line.length - pos = (line.length - (pos + 1)) + 1 := by omega
    rw [hfuel, if_pos h]
    rfl
  · have hfuel : line.length - pos = 0 := by omega
    rw [hfuel, if_neg h]
    rfl

theorem boundariesFrom_eq (line : List Char) (pos : Nat) :
    boundariesFrom line pos =
      if pos < line.length then
        if boundaryAt line pos then pos :: boundariesFrom line (pos + 1)
        else boundariesFrom line (pos + 1)
      else [] := by
  unfold boundariesFrom
  by_cases h : pos < line.length
  · have hfuel : line.length - pos = (line.length - (pos + 1)) + 1 := by omega
    rw [hfuel, if_pos h]
    rfl
  · have hfuel : line.length - pos = 0 := by omega
    rw [hfuel, if_neg h]
    rfl

theorem findBoundary_eq_head (line : List Char) (pos : Nat) :
    findBoundary line pos = (boundariesFrom line pos).head? := by
  rw [findBoundary_step, boundariesFrom_eq]
  split
  · split
    · rfl
    · exact findBoundary_eq_head line (pos + 1)
  · rfl
termination_by line.length - pos

theorem boundariesFrom_of_findBoundary {line : List Char} {pos b : Nat}
    (h : findBoundary line pos = some b) :
    boundariesFrom line pos = b :: boundariesFrom line (b + 1) := by
  rw [findBoundary_step] at h
  split at h
  · rename_i hlt
    by_cases hb : boundaryAt line pos
    · rw [if_pos hb] at h
      cases h
      rw [boundariesFrom_eq, if_pos hlt, if_pos hb]
    · rw [if_neg hb] at h
      rw [boundariesFrom_eq, if_pos hlt, if_neg hb]
      exact boundariesFrom_of_findBoundary h
  · cases h
termination_by line.length - pos

theorem findBoundary_none_of_nil {line : List Char} {pos : Nat}
    (h : boundariesFrom line pos = []) : findBoundary line pos = none := by
  rw [findBoundary_eq_head, h]
  rfl

theorem boundariesFrom_mem {line : List Char} :
    ∀ {pos b : Nat}, b ∈ boundariesFrom line pos →
      pos ≤ b ∧ boundaryAt line b = true := by
  intro pos b hmem
  rw [boundariesFrom_eq] at hmem
  split at hmem
  · rename_i hlt
    split at hmem
    · rename_i hb
      rcases List.mem_cons.mp hmem with h | h
      · subst h
        exact ⟨Nat.le_refl _, hb⟩
      · have ih := boundariesFrom_mem h
        exact ⟨by omega, ih.2⟩
    · have ih := boundariesFrom_mem hmem
      exact ⟨by omega, ih.2⟩
  · simp at hmem
termination_by pos => line.length - pos

theorem boundariesFrom_chain (line : List Char) :
    ∀ pos : Nat, List.Chain' (· < ·) (boundariesFrom line pos) := by
  intro pos
  rw [boundariesFrom_eq]
  split
  · rename_i hlt
    split
    · rw [List.chain'_cons']
      refine ⟨?_, boundariesFrom_chain line (pos + 1)⟩
      intro b hb
      have h1 := (boundariesFrom_mem (List.mem_of_mem_head? hb)).1
      omega
    · exact boundariesFrom_chain line (pos + 1)
  · exact List.chain'_nil
termination_by pos => line.length - pos

/-- `boundaryAt` requires the dash one past the position, so a boundary
position is at least two characters from the end. -/
theorem boundaryAt_lt {line : List Char} {p : Nat} (h : boundaryAt line p = true) :
    p + 1 < line.length := by
  have h2 : line.get? (p + 1) = some '-' := by
    have := (Bool.and_eq_true _ _).mp h
    simpa using this.2
  by_contra hge
  rw [List.get?_eq_none.mpr (by omega)] at h2
  cases h2

theorem spansOf_length (len : Nat) :
    ∀ (bs : List Nat) (pos : Nat), (spansOf pos bs len).length = bs.length + 1
  | [], _ => rfl
  | _ :: rest, pos => by
    simp [spansOf, spansOf_length len rest]

theorem spansOf_head_fst (len : Nat) (bs : List Nat) (pos : Nat) :
    (spansOf pos bs len).head?.map Prod.fst = some pos := by
  cases bs <;> rfl

theorem spansOf_last_snd (len : Nat) :
    ∀ (bs : List Nat) (pos : Nat),
      (spansOf pos bs len).getLast?.map Prod.snd = some len
  | [], _ => rfl
  | [_], _ => rfl
  | b :: b2 :: rest, pos => by
    have ih := spansOf_last_snd len (b2 :: rest) (b + 1)
    simpa [spansOf, List.getLast?_cons_cons] using ih

theorem spansOf_chain (len : Nat) :
    ∀ (bs : List Nat) (pos : Nat),
      List.Chain' (fun a b : Nat × Nat => a.2 + 1 = b.1) (spansOf pos bs len)
  | [], _ => List.chain'_singleton _
  | b :: rest, pos => by
    rw [spansOf, List.chain'_cons']
    refine ⟨?_, spansOf_chain len rest (b + 1)⟩
    intro sp hsp
    have hhead := spansOf_head_fst len rest (b + 1)
    rw [hsp] at hhead
    simp at hhead
    simp [hhead]

theorem spansOf_fst_le_snd (len : Nat) :
    ∀ (bs : List Nat) (pos : Nat), pos ≤ len →
      List.Chain' (· < ·) bs → (∀ b ∈ bs, pos ≤ b ∧ b + 1 ≤ len) →
      ∀ sp ∈ spansOf pos bs len, sp.1 ≤ sp.2
  | [], pos, hpos, _, _, sp, hsp => by
    rw [spansOf] at hsp
    simp at hsp
    simp [hsp, hpos]
  | b :: rest, pos, hpos, hchain, hmem, sp, hsp => by
    rw [spansOf] at hsp
    rcases List.mem_cons.mp hsp with h | h
    · subst h
      exact (hmem b (List.mem_cons_self _ _)).1
    · refine spansOf_fst_le_snd len rest (b + 1) ?_ ?_ ?_ sp h
      · exact (hmem b (List.mem_cons_self _ _)).2
      · exact (List.chain'_cons'.mp hchain).2
      · intro b' hb'
        have hlt : b < b' := by
          have hch : List.Chain (· < ·) b rest := hchain
          exact List.Chain.rel hch hb'
        exact ⟨by omega, (hmem b' (List.mem_cons_of_mem _ hb')).2⟩

/-- A successful `readColumns` scan: when the number of columns is exactly one
more than the number of space-dash boundaries at or after `pos`, the loop
completes without throwing and produces the spans `spansOf`. -/
theorem readColumnsGo_success (line : List Char) :
    ∀ (cols : List Column) (pos i : Nat),
      cols.length = (boundariesFrom line pos).length + 1 →
      (readColumnsGo line pos i cols).2 = none ∧
      spans (readColumnsGo line pos i cols).1 =
        spansOf pos (boundariesFrom line pos) line.length
  | [], pos, i, h => by simp at h
  | c :: rest, pos, i, h => by
    cases hbs : boundariesFrom line pos with
    | nil =>
      have hrest : rest = [] := by
        rw [hbs] at h
        simpa using h
      subst hrest
      have hfb : findBoundary line pos = none := findBoundary_none_of_nil hbs
      simp [readColumnsGo, hfb, spans, spansOf, hbs]
    | cons b bs =>
      have hfb : findBoundary line pos = some b := by
        rw [findBoundary_eq_head, hbs]
        rfl
      have hbs' : boundariesFrom line (b + 1) = bs := by
        have hc := boundariesFrom_of_findBoundary hfb
        rw [hbs] at hc
        exact (List.cons.injEq _ _ _ _ ▸ hc).2.symm
      have hlen : rest.length = (boundariesFrom line (b + 1)).length + 1 := by
        rw [hbs']
        rw [hbs] at h
        simpa using h
      have ih := readColumnsGo_success line rest (b + 1) (i + 1) hlen
      rw [hbs', hbs] at *
      simp only [readColumnsGo, hfb]
      constructor
      · exact ih.1
      · simp [spans] at ih ⊢
        rw [spansOf]
        simp [ih.2]

/-- A failing `readColumns` scan: when there are strictly more columns than
boundaries plus one, the loop throws, and the message counts the columns
found so far. -/
theorem readColumnsGo_failure (line : List Char) :
    ∀ (cols : List Column) (pos i : Nat),
      (boundariesFrom line pos).length + 1 < cols.length →
      (readColumnsGo line pos i cols).2 =
        some ("readColumns: Only found " ++
          toString (i + (boundariesFrom line pos).length) ++ " columns.")
  | [], pos, i, h => by simp at h
  | c :: rest, pos, i, h => by
    cases hbs : boundariesFrom line pos with
    | nil =>
      have hrest : rest ≠ [] := by
        rw [hbs] at h
        simp at h
        exact List.ne_nil_of_length_pos (by omega)
      have hfb : findBoundary line pos = none := findBoundary_none_of_nil hbs
      simp [readColumnsGo, hfb, List.isEmpty_iff, hrest, hbs]
    | cons b bs =>
      have hfb : findBoundary line pos = some b := by
        rw [findBoundary_eq_head, hbs]
        rfl
      have hbs' : boundariesFrom line (b + 1) = bs := by
        have hc := boundariesFrom_of_findBoundary hfb
        rw [hbs] at hc
        exact (List.cons.injEq _ _ _ _ ▸ hc).2.symm
      have hlen : (boundariesFrom line (b + 1)).length + 1 < rest.length := by
        rw [hbs']
        rw [hbs] at h
        simpa using h
      have ih := readColumnsGo_failure line rest (b + 1) (i + 1) hlen
      rw [hbs'] at ih
      simp only [readColumnsGo, hfb]
      rw [ih]
      have harith : i + 1 + bs.length = i + (b :: bs).length := by
        simp
        omega
      rw [harith]

/-- Every span of `spansOf` starts at or after the scan position. -/
theorem spansOf_fst_ge (len : Nat) :
    ∀ (bs : List Nat) (pos : Nat), List.Chain' (· < ·) bs → (∀ b ∈ bs, pos ≤ b) →
      ∀ sp ∈ spansOf pos bs len, pos ≤ sp.1
  | [], pos, _, _, sp, hsp => by
    rw [spansOf] at hsp
    simp at hsp
    simp [hsp]
  | b :: rest, pos, hchain, hmem, sp, hsp => by
    rw [spansOf] at hsp
    rcases List.mem_cons.mp hsp with rfl | h
    · exact Nat.le_refl _
    · have hposb : pos ≤ b := hmem b (List.mem_cons_self _ _)
      have hrest : ∀ b' ∈ rest, b + 1 ≤ b' := by
        intro b' hb'
        have hch : List.Chain (· < ·) b rest := hchain
        have := List.Chain.rel hch hb'
        omega
      have ih := spansOf_fst_ge len rest (b + 1)
        (List.chain'_cons'.mp hchain).2 hrest sp h
      omega

/-- In a chain of spans each starting one past the previous end, the first
span ends strictly before every later span starts. -/
theorem chain_spans_head_lt :
    ∀ (t : List (Nat × Nat)) (x : Nat × Nat),
      List.Chain' (fun a b : Nat × Nat => a.2 + 1 = b.1) (x :: t) →
      (∀ sp ∈ x :: t, sp.1 ≤ sp.2) →
      ∀ y ∈ t, x.2 < y.1
  | [], _, _, _, y, hy => by simp at hy
  | h :: t', x, hchain, hle, y, hy => by
    have hx : x.2 + 1 = h.1 := (List.chain'_cons.mp hchain).1
    rcases List.mem_cons.mp hy with rfl | hy'
    · omega
    · have hht : h.1 ≤ h.2 := hle h (by simp)
      have ih := chain_spans_head_lt t' h (List.Chain'.tail hchain)
        (fun sp hsp => hle sp (List.mem_cons_of_mem _ hsp)) y hy'
      omega

/-- Spans chained with a one-position gap are pairwise disjoint, each ending
strictly before every later one starts. -/
theorem spans_pairwise_disjoint :
    ∀ l : List (Nat × Nat),
      List.Chain' (fun a b : Nat × Nat => a.2 + 1 = b.1) l →
      (∀ sp ∈ l, sp.1 ≤ sp.2) →
      List.Pairwise (fun a b : Nat × Nat => a.2 < b.1) l
  | [], _, _ => List.Pairwise.nil
  | x :: t, hchain, hle => by
    refine List.Pairwise.cons (chain_spans_head_lt t x hchain hle)
      (spans_pairwise_disjoint t (List.Chain'.tail hchain) ?_)
    intro sp hsp
    exact hle sp (List.mem_cons_of_mem _ hsp)

/-- Exact coverage of a successful scan: a position of the line lies in one
of the spans if and only if it is not one of the consumed boundary (space)
positions. -/
theorem spansOf_cover (len : Nat) :
    ∀ (bs : List Nat) (pos : Nat), List.Chain' (· < ·) bs →
      (∀ b ∈ bs, pos ≤ b ∧ b + 1 ≤ len) →
      ∀ k : Nat, pos ≤ k → k < len →
        ((∃ sp ∈ spansOf pos bs len, sp.1 ≤ k ∧ k < sp.2) ↔ k ∉ bs)
  | [], pos, _, _, k, hk, hklen => by
    constructor
    · intro _
      simp
    · intro _
      exact ⟨(pos, len), by rw [spansOf]; simp, hk, hklen⟩
  | b :: rest, pos, hchain, hmem, k, hk, hklen => by
    have hb := hmem b (List.mem_cons_self _ _)
    have hchain' := (List.chain'_cons'.mp hchain).2
    have hmem' : ∀ b' ∈ rest, b + 1 ≤ b' ∧ b' + 1 ≤ len := by
      intro b' hb'
      have hch : List.Chain (· < ·) b rest := hchain
      have := List.Chain.rel hch hb'
      exact ⟨by omega, (hmem b' (List.mem_cons_of_mem _ hb')).2⟩
    rw [spansOf]
    by_cases hkb : k < b
    · constructor
      · intro _
        simp
        refine ⟨by omega, ?_⟩
        intro hkr
        have := (hmem' k hkr).1
        omega
      · intro _
        exact ⟨(pos, b), List.mem_cons_self _ _, hk, hkb⟩
    · by_cases hkeq : k = b
      · subst hkeq
        constructor
        · rintro ⟨sp, hsp, hsp1, hsp2⟩
          exfalso
          rcases List.mem_cons.mp hsp with rfl | hsp'
          · omega
          · have := spansOf_fst_ge len rest (k + 1) hchain'
              (fun b' hb' => (hmem' b' hb').1) sp hsp'
            omega
        · intro hnot
          exact absurd (List.mem_cons_self _ _) hnot
      · have hkb' : b + 1 ≤ k := by omega
        have ih := spansOf_cover len rest (b + 1) hchain' hmem' k hkb' hklen
        constructor
        · rintro ⟨sp, hsp, h1, h2⟩
          rcases List.mem_cons.mp hsp with rfl | hsp'
          · omega
          · have hknr : k ∉ rest := ih.mp ⟨sp, hsp', h1, h2⟩
            simp
            exact ⟨by omega, hknr⟩
        · intro hnot
          have hknr : k ∉ rest := fun hr => hnot (List.mem_cons_of_mem _ hr)
          rcases ih.mpr hknr with ⟨sp, hsp, h1, h2⟩
          exact ⟨sp, List.mem_cons_of_mem _ hsp, h1, h2⟩

/-- C2 counterexample, at two inputs.  With two columns and the well-formed
separator `"-- --"` (exactly N-1 = 1 boundary occurrence) the computed
spans are `[(0,2), (3,5)]`: the second column starts one *past* the first
column's end — the separator space at position 2 belongs to no span — so
the spans are not contiguous and do not cover the line.  And with the
separator `"-- -- --"` (three occurrences, still "at least N-1") the spans
are again `[(0,2), (3,5)]`: the last span ends at 5, not at the line
length 8, because the scan consumed a boundary for the last column. -/
theorem claimTabularContiguous_false :
    ¬ claimTabularContiguous ["A", "B"] "-- --" ∧
    ¬ claimTabularContiguous ["A", "B"] "-- -- --" := by
  constructor
  · intro h
    have h2 := h (by decide)
    have h3 := h2.2.2.2.2
    have hsp : spans (readColumns (freshColumns ["A", "B"]) "-- --").1
        = [(0, 2), (3, 5)] := by decide
    rw [hsp] at h3
    simp [List.chain'_cons] at h3
  · intro h
    have h2 := h (by decide)
    have h3 := h2.2.2.2.2
    have hsp : spans (readColumns (freshColumns ["A", "B"]) "-- -- --").1
        = [(0, 2), (3, 5)] := by decide
    rw [hsp] at h3
    simp [List.chain'_cons] at h3

/-- C2, amended: when the separator line contains exactly N-1 space-dash
occurrences, `readColumns` returns normally with exactly N spans in
increasing order; the first span starts at 0, each later span starts one
position past the previous span's end (the single separator space belongs
to no column), the last span ends at the line length, the spans are
pairwise non-overlapping, and together they cover exactly the positions of
the line that are not one of the N-1 separator spaces. -/
theorem readColumns_spans (titles : List String) (line : String)
    (h : titles.length = (boundariesFrom line.data 0).length + 1) :
    (readColumns (freshColumns titles) line).2 = none ∧
    (readColumns (freshColumns titles) line).1.length = titles.length ∧
    spans (readColumns (freshColumns titles) line).1 =
      spansOf 0 (boundariesFrom line.data 0) line.data.length ∧
    (spans (readColumns (freshColumns titles) line).1).head?.map Prod.fst = some 0 ∧
    (spans (readColumns (freshColumns titles) line).1).getLast?.map Prod.snd
      = some line.data.length ∧
    List.Chain' (fun a b : Nat × Nat => a.2 + 1 = b.1)
      (spans (readColumns (freshColumns titles) line).1) ∧
    (∀ sp ∈ spans (readColumns (freshColumns titles) line).1, sp.1 ≤ sp.2) ∧
    List.Pairwise (fun a b : Nat × Nat => a.2 < b.1)
      (spans (readColumns (freshColumns titles) line).1) ∧
    ∀ k : Nat, k < line.data.length →
      ((∃ sp ∈ spans (readColumns (freshColumns titles) line).1, sp.1 ≤ k ∧ k < sp.2) ↔
        k ∉ boundariesFrom line.data 0) := by
  have hlen : (freshColumns titles).length = (boundariesFrom line.data 0).length + 1 := by
    simpa [freshColumns] using h
  have hs := readColumnsGo_success line.data (freshColumns titles) 0 0 hlen
  have hmem : ∀ b ∈ boundariesFrom line.data 0, 0 ≤ b ∧ b + 1 ≤ line.data.length := by
    intro b hb
    have := boundariesFrom_mem hb
    have := boundaryAt_lt this.2
    omega
  have hle : ∀ sp ∈ spansOf 0 (boundariesFrom line.data 0) line.data.length, sp.1 ≤ sp.2 :=
    spansOf_fst_le_snd line.data.length (boundariesFrom line.data 0) 0
      (by omega) (boundariesFrom_chain line.data 0) hmem
  simp only [readColumns]
  refine ⟨hs.1, ?_, hs.2, ?_, ?_, ?_, ?_, ?_, ?_⟩
  · have hcongr := congrArg List.length hs.2
    simp [spans, spansOf_length] at hcongr
    rw [hcongr, ← h]
  · rw [hs.2]
    exact spansOf_head_fst _ _ _
  · rw [hs.2]
    exact spansOf_last_snd _ _ _
  · rw [hs.2]
    exact spansOf_chain _ _ _
  · rw [hs.2]
    exact hle
  · rw [hs.2]
    exact spans_pairwise_disjoint _ (spansOf_chain _ _ _) hle
  · intro k hk
    rw [hs.2]
    exact spansOf_cover line.data.length (boundariesFrom line.data 0) 0
      (boundariesFrom_chain line.data 0) hmem k (Nat.zero_le k) hk

/-- Witness for `readColumns_spans` at two columns and the separator
`"-- --"`, which has exactly one boundary occurrence. -/
theorem readColumns_spans_witness :
    (readColumns (freshColumns ["A", "B"]) "-- --").2 = none ∧
    (readColumns (freshColumns ["A", "B"]) "-- --").1.length = (["A", "B"] : List String).length ∧
    spans (readColumns (freshColumns ["A", "B"]) "-- --").1 =
      spansOf 0 (boundariesFrom "-- --".data 0) "-- --".data.length ∧
    (spans (readColumns (freshColumns ["A", "B"]) "-- --").1).head?.map Prod.fst = some 0 ∧
    (spans (readColumns (freshColumns ["A", "B"]) "-- --").1).getLast?.map Prod.snd
      = some "-- --".data.length ∧
    List.Chain' (fun a b : Nat × Nat => a.2 + 1 = b.1)
      (spans (readColumns (freshColumns ["A", "B"]) "-- --").1) ∧
    (∀ sp ∈ spans (readColumns (freshColumns ["A", "B"]) "-- --").1, sp.1 ≤ sp.2) ∧
    List.Pairwise (fun a b : Nat × Nat => a.2 < b.1)
      (spans (readColumns (freshColumns ["A", "B"]) "-- --").1) ∧
    ∀ k : Nat, k < "-- --".data.length →
      ((∃ sp ∈ spans (readColumns (freshColumns ["A", "B"]) "-- --").1, sp.1 ≤ k ∧ k < sp.2) ↔
        k ∉ boundariesFrom "-- --".data 0) :=
  readColumns_spans ["A", "B"] "-- --" (by decide)

/-- C3 counterexample: three columns against the separator `"-- --"` (one
boundary, fewer than N-1 = 2).  `readColumns` does throw the
column-count-mismatch error, but the caller's `columns` array is *not*
unchanged: the first column's span `[0,2)` and the second column's new
start 3 were already written when the error was raised. -/
theorem claimNoPartialColumns_false :
    (readColumns (freshColumns ["A", "B", "C"]) "-- --").2 =
      some "readColumns: Only found 1 columns." ∧
    (readColumns (freshColumns ["A", "B", "C"]) "-- --").1 ≠
      freshColumns ["A", "B", "C"] := by
  constructor
  · decide
  · decide

/-- C3, amended: with fewer space-dash occurrences than expected columns
minus one, `readColumns` throws the column-count-mismatch error whose
message counts the boundaries found; no span list is returned as a value
(the TypeScript function returns `void` and exits by `throw`), but spans
computed before the failure remain written into the caller's `columns`
array. -/
theorem readColumns_mismatch (cols : List Column) (line : String)
    (h : (boundariesFrom line.data 0).length + 1 < cols.length) :
    (readColumns cols line).2 =
      some ("readColumns: Only found " ++
        toString (boundariesFrom line.data 0).length ++ " columns.") := by
  have := readColumnsGo_failure line.data cols 0 0 h
  simpa [readColumns] using this

/-- Witness for `readColumns_mismatch`: three columns, one boundary. -/
theorem readColumns_mismatch_witness :
    (readColumns (freshColumns ["A", "B", "C"]) "-- --").2 =
      some ("readColumns: Only found " ++
        toString (boundariesFrom "-- --".data 0).length ++ " columns.") :=
  readColumns_mismatch (freshColumns ["A", "B", "C"]) "-- --" (by decide)

theorem testApiConnectivity_cons (resolve : NetConnectivity → String × Bool)
    (ping : NetConnectivity → Bool) (profiles : List ConnectionProfile)
    (c : NetConnectivity) (rest : List NetConnectivity) :
    testApiConnectivity resolve ping profiles (c :: rest) =
      if connVerified resolve ping profiles c then
        (connEvents resolve profiles c, some (resolveConn resolve c))
      else
        (connEvents resolve profiles c ++
          (testApiConnectivity resolve ping profiles rest).1,
         (testApiConnectivity resolve ping profiles rest).2) := by
  by_cases h4 : (c.hasIpv4 || c.hasIpv6) = true
  · by_cases haddr : (resolveConn resolve c).ipAddress = ""
    · simp [testApiConnectivity, connEvents, connVerified, h4, haddr]
    · by_cases hman : (resolveConn resolve c).isManualAddress
      · simp [testApiConnectivity, connEvents, connVerified, h4, haddr, hman]
      · by_cases hprof : (profiles.find? fun p =>
            p.ifaceId == c.ifaceId && p.isConnected).isNone
        · simp [testApiConnectivity, connEvents, connVerified, h4, haddr, hman, hprof,
            Option.isNone_iff_eq_none.mp hprof]
        · cases hfind : profiles.find? fun p => p.ifaceId == c.ifaceId && p.isConnected with
          | none => simp [hfind] at hprof
          | some q =>
            by_cases hping : ping (resolveConn resolve c) = true <;>
              simp [testApiConnectivity, connEvents, connVerified, h4, haddr, hman,
                hfind, hping]
  · simp [testApiConnectivity, connEvents, connVerified, h4]

/-- The verifier's returned connection is the first list entry satisfying
`connVerified`, updated by address resolution. -/
theorem testApiConnectivity_snd_eq_find (resolve : NetConnectivity → String × Bool)
    (ping : NetConnectivity → Bool) (profiles : List ConnectionProfile) :
    ∀ conns : List NetConnectivity,
      (testApiConnectivity resolve ping profiles conns).2 =
        (conns.find? (connVerified resolve ping profiles)).map (resolveConn resolve)
  | [] => rfl
  | c :: rest => by
    rw [testApiConnectivity_cons]
    by_cases hc : connVerified resolve ping profiles c = true
    · simp [hc, List.find?_cons_of_pos _ hc]
    · rw [if_neg hc, List.find?_cons_of_neg _ (by simpa using hc)]
      exact testApiConnectivity_snd_eq_find resolve ping profiles rest

theorem testApiConnectivity_append_of_none (resolve : NetConnectivity → String × Bool)
    (ping : NetConnectivity → Bool) (profiles : List ConnectionProfile) :
    ∀ (l1 l2 : List NetConnectivity),
      (testApiConnectivity resolve ping profiles l1).2 = none →
      testApiConnectivity resolve ping profiles (l1 ++ l2) =
        ((testApiConnectivity resolve ping profiles l1).1 ++
          (testApiConnectivity resolve ping profiles l2).1,
         (testApiConnectivity resolve ping profiles l2).2)
  | [], l2, _ => by simp [testApiConnectivity]
  | c :: rest, l2, h => by
    rw [testApiConnectivity_cons] at h
    by_cases hc : connVerified resolve ping profiles c = true
    · rw [if_pos hc] at h
      cases h
    · rw [if_neg hc] at h
      have ih := testApiConnectivity_append_of_none resolve ping profiles rest l2 h
      rw [List.cons_append, testApiConnectivity_cons, if_neg hc, ih,
        testApiConnectivity_cons, if_neg hc]
      simp

/-- If every entry of a list fails `connVerified`, the verifier returns
`none` on it. -/
theorem testApiConnectivity_none_of_all_fail (resolve : NetConnectivity → String × Bool)
    (ping : NetConnectivity → Bool) (profiles : List ConnectionProfile)
    (conns : List NetConnectivity)
    (h : ∀ x ∈ conns, connVerified resolve ping profiles x = false) :
    (testApiConnectivity resolve ping profiles conns).2 = none := by
  rw [testApiConnectivity_snd_eq_find]
  rw [List.find?_eq_none.mpr fun x hx => by simp [h x hx]]
  rfl

theorem markFirstProfile_data (ifaceId ssid : String) :
    ∀ l : List ConnectionProfile,
      (markFirstProfile ifaceId ssid l).map profileData = l.map profileData
  | [] => rfl
  | p :: rest => by
    unfold markFirstProfile
    split
    · simp [profileData]
    · simp [markFirstProfile_data ifaceId ssid rest]

theorem wlanMatchStep_data (guid ssid : String) :
    ∀ (conns : List NetConnectivity) (profiles : List ConnectionProfile),
      (wlanMatchStep profiles guid ssid conns).map profileData = profiles.map profileData
  | [], _ => rfl
  | conn :: rest, profiles => by
    unfold wlanMatchStep
    split
    · split
      · exact markFirstProfile_data _ _ _
      · exact wlanMatchStep_data guid ssid rest profiles
    · exact wlanMatchStep_data guid ssid rest profiles

theorem readWlanInterfaces_data (conns : List NetConnectivity) :
    ∀ (pairs : List (String × String)) (profiles : List ConnectionProfile),
      (readWlanInterfaces pairs conns profiles).map profileData = profiles.map profileData
  | [], _ => rfl
  | pr :: rest, profiles => by
    unfold readWlanInterfaces
    simp only [List.foldl_cons]
    have ih := readWlanInterfaces_data conns rest (wlanMatchStep profiles pr.1 pr.2 conns)
    unfold readWlanInterfaces at ih
    rw [ih, wlanMatchStep_data]

theorem mapSet_mem {m : List (String × ConnectionProfile)} {k : String}
    {v : ConnectionProfile} {e : String × ConnectionProfile}
    (he : e ∈ mapSet m k v) : e ∈ m ∨ e = (k, v) := by
  unfold mapSet at he
  split at he
  · rcases List.mem_map.mp he with ⟨a, ha, hae⟩
    split at hae
    · right
      exact hae.symm
    · left
      rw [← hae]
      exact ha
  · rcases List.mem_append.mp he with h | h
    · left
      exact h
    · right
      simpa using h

theorem authTypeOf_mem {a : String} {t : WifiAuthType} (h : authTypeOf a = some t) :
    a ∈ (["open", "WPA2PSK", "WPA3SAE"] : List String) := by
  unfold authTypeOf at h
  split at h <;> simp_all

/-- A row accepted by `readProfiles` has a supported authentication string,
and if its stored key is empty the authentication is keyless (`open`,
mapped to `NONE`). -/
theorem parseProfileRow_accepted {cols : List Column} {line : String}
    {p : ConnectionProfile} (h : parseProfileRow cols line = .accepted p) :
    colText cols 2 line ∈ (["open", "WPA2PSK", "WPA3SAE"] : List String) ∧
    (p.wifiKey = "" → colText cols 2 line = "open" ∧ p.wifiAuthType = .NONE) := by
  unfold parseProfileRow at h
  split at h
  · cases h
  · rcases hauth : authTypeOf (colText cols 2 line) with _ | authType
    · simp only [hauth] at h
      cases h
    · simp only [hauth] at h
      split at h
      · cases h
      · rename_i hcond
        injection h with hp
        refine ⟨authTypeOf_mem hauth, ?_⟩
        intro hkey
        rw [← hp] at hkey
        simp only at hkey
        have hcontains : KEYLESS_AUTH_MODES.contains (colText cols 2 line) = true := by
          cases hcb : KEYLESS_AUTH_MODES.contains (colText cols 2 line) with
          | true => rfl
          | false => exact absurd (by rw [hkey, hcb]; rfl) hcond
        have hopen : colText cols 2 line = "open" := by
          simpa [KEYLESS_AUTH_MODES] using hcontains
        refine ⟨hopen, ?_⟩
        rw [hopen] at hauth
        have hNONE : authType = WifiAuthType.NONE := by
          have h2 := hauth
          unfold authTypeOf at h2
          simpa using h2.symm
        rw [← hp, hNONE]

/-- Definitional unfolding of one iteration of the line loop. -/
theorem readProfilesGo_cons (cols : List Column) (m : List (String × ConnectionProfile))
    (logs : List String) (line : String) (rest : List String) :
    readProfilesGo cols m logs (line :: rest) =
      if (cols.getD 0 default).endPos == 0 then
        if containsSub "-----".data line.data then
          match readColumns cols line with
          | (cols', none) => readProfilesGo cols' m logs rest
          | (_, some e) => .error e
        else readProfilesGo cols m logs rest
      else
        match parseProfileRow cols line with
        | .blank => readProfilesGo cols m logs rest
        | .unsupported name auth =>
          readProfilesGo cols m
            (logs ++ ["WiFi profile " ++ name ++ " with auth " ++ auth ++ " not supported"])
            rest
        | .missingKey name auth =>
          readProfilesGo cols m
            (logs ++ ["Rejected WiFi profile " ++ name ++ " with auth " ++ auth ++
              " but no passphrase"]) rest
        | .accepted p => readProfilesGo cols (mapSet m p.name p) logs rest := rfl

/-- The map invariant carried through the row loop: every stored profile
with an empty key has authentication kind `NONE`. -/
theorem readProfilesGo_keyInv :
    ∀ (lines : List String) (cols : List Column)
      (m : List (String × ConnectionProfile)) (logs : List String)
      (m' : List (String × ConnectionProfile)) (logs' : List String),
      (∀ e ∈ m, e.2.wifiKey = "" → e.2.wifiAuthType = .NONE) →
      readProfilesGo cols m logs lines = .ok (m', logs') →
      ∀ e ∈ m', e.2.wifiKey = "" → e.2.wifiAuthType = .NONE
  | [], cols, m, logs, m', logs', hinv, h => by
    unfold readProfilesGo at h
    injection h with h'
    injection h' with h1 h2
    subst h1
    exact hinv
  | line :: rest, cols, m, logs, m', logs', hinv, h => by
    unfold readProfilesGo at h
    split at h
    · split at h
      · rcases hrc : readColumns cols line with ⟨cols2, err⟩
        rcases err with _ | e <;> simp only [hrc] at h
        · exact readProfilesGo_keyInv rest cols2 m logs m' logs' hinv h
        · simp at h
      · exact readProfilesGo_keyInv rest cols m logs m' logs' hinv h
    · cases hpr : parseProfileRow cols line with
      | blank =>
        simp only [hpr] at h
        exact readProfilesGo_keyInv rest cols m logs m' logs' hinv h
      | unsupported name auth =>
        simp only [hpr] at h
        exact readProfilesGo_keyInv rest cols m _ m' logs' hinv h
      | missingKey name auth =>
        simp only [hpr] at h
        exact readProfilesGo_keyInv rest cols m _ m' logs' hinv h
      | accepted p =>
        simp only [hpr] at h
        refine readProfilesGo_keyInv rest cols (mapSet m p.name p) logs m' logs' ?_ h
        intro e he hkey
        rcases mapSet_mem he with hm | rfl
        · exact hinv e hm hkey
        · exact ((parseProfileRow_accepted hpr).2 hkey).2

/-- C8: a stored profile reaches the returned map only with a supported
authentication kind and (unless keyless) a non-empty passphrase; rejected
rows are reported and skipped without touching the map, and the loop then
continues with the remaining rows. -/
theorem readProfiles_rejects_unsupported :
    (∀ (text : String) (m : List (String × ConnectionProfile)) (logs : List String),
      readProfiles text = .ok (m, logs) →
      ∀ e ∈ m, e.2.wifiKey = "" → e.2.wifiAuthType = .NONE) ∧
    (∀ (cols : List Column) (m : List (String × ConnectionProfile))
        (logs : List String) (line : String) (rest : List String) (name auth : String),
      ((cols.getD 0 default).endPos == 0) = false →
      parseProfileRow cols line = .unsupported name auth →
      readProfilesGo cols m logs (line :: rest) =
        readProfilesGo cols m
          (logs ++ ["WiFi profile " ++ name ++ " with auth " ++ auth ++ " not supported"])
          rest) ∧
    (∀ (cols : List Column) (m : List (String × ConnectionProfile))
        (logs : List String) (line : String) (rest : List String) (name auth : String),
      ((cols.getD 0 default).endPos == 0) = false →
      parseProfileRow cols line = .missingKey name auth →
      readProfilesGo cols m logs (line :: rest) =
        readProfilesGo cols m
          (logs ++ ["Rejected WiFi profile " ++ name ++ " with auth " ++ auth ++
            " but no passphrase"]) rest) ∧
    (∀ (cols : List Column) (line : String) (p : ConnectionProfile),
      parseProfileRow cols line = .accepted p →
      colText cols 2 line ∈ (["open", "WPA2PSK", "WPA3SAE"] : List String) ∧
      (p.wifiKey = "" → p.wifiAuthType = .NONE)) := by
  refine ⟨?_, ?_, ?_, ?_⟩
  · intro text m logs h
    exact readProfilesGo_keyInv _ _ [] [] m logs (by simp) h
  · intro cols m logs line rest name auth hguard hpr
    rw [readProfilesGo_cons, if_neg (by rw [hguard]; simp), hpr]
  · intro cols m logs line rest name auth hguard hpr
    rw [readProfilesGo_cons, if_neg (by rw [hguard]; simp), hpr]
  · intro cols line p h
    exact ⟨(parseProfileRow_accepted h).1, fun hk => ((parseProfileRow_accepted h).2 hk).2⟩

/-- Witness for `readProfiles_rejects_unsupported`, on `sampleWifiTable`:
the returned map holds exactly the WPA2 profile with its key and the
keyless open profile, and the accepted-row conjunct applies to the WPA2
row. -/
theorem readProfiles_rejects_unsupported_witness :
    (∀ e ∈ ([("home1", ⟨"home1", "", .WPA2_PSK, "secret12", "", false⟩),
             ("open4", ⟨"open4", "", .NONE, "", "", false⟩)] :
        List (String × ConnectionProfile)),
      e.2.wifiKey = "" → e.2.wifiAuthType = .NONE) ∧
    (colText sampleWifiCols 2 "home1    auto     WPA2PSK  AES      secret12" ∈
      (["open", "WPA2PSK", "WPA3SAE"] : List String) ∧
     ((⟨"home1", "", .WPA2_PSK, "secret12", "", false⟩ : ConnectionProfile).wifiKey = "" →
      (⟨"home1", "", .WPA2_PSK, "secret12", "", false⟩ : ConnectionProfile).wifiAuthType
        = .NONE)) :=
  ⟨readProfiles_rejects_unsupported.1 sampleWifiTable
      [("home1", ⟨"home1", "", .WPA2_PSK, "secret12", "", false⟩),
       ("open4", ⟨"open4", "", .NONE, "", "", false⟩)]
      ["WiFi profile old2 with auth WEP not supported",
       "Rejected WiFi profile nokey3 with auth WPA2PSK but no passphrase"] (by rfl),
   readProfiles_rejects_unsupported.2.2.2 sampleWifiCols
      "home1    auto     WPA2PSK  AES      secret12"
      ⟨"home1", "", .WPA2_PSK, "secret12", "", false⟩ (by decide)⟩

/-! ## Claim theorems for the connectivity verifier -/

/-- C1: `testApiConnectivity` walks the connection map in insertion order
and returns the first record that passes the loop's per-record checks —
a reachability flag set, a usable non-manual resolved address, a connected
profile — and whose probe succeeds, ending iteration at that record (the
trace shows no event past it); if no record succeeds it returns `null`
(`none`), and `validateAnalyzer` then throws the hard
"balena API not reachable" error that blocks migration. -/
theorem testApiConnectivity_first_success (resolve : NetConnectivity → String × Bool)
    (ping : NetConnectivity → Bool) (profs : List ConnectionProfile)
    (conns : List NetConnectivity) :
    ((testApiConnectivity resolve ping profs conns).2 =
      (conns.find? (connVerified resolve ping profs)).map (resolveConn resolve)) ∧
    ((∀ x ∈ conns, connVerified resolve ping profs x = false) →
      (testApiConnectivity resolve ping profs conns).2 = none ∧
      validateAnalyzer resolve ping profs conns =
        .thrown "balena API not reachable from any connected interface") ∧
    (∀ (l1 : List NetConnectivity) (c : NetConnectivity) (l2 : List NetConnectivity),
      conns = l1 ++ c :: l2 →
      (∀ x ∈ l1, connVerified resolve ping profs x = false) →
      connVerified resolve ping profs c = true →
      testApiConnectivity resolve ping profs conns =
        ((testApiConnectivity resolve ping profs l1).1 ++
          [VerifierEvent.resolved c, VerifierEvent.pinged (resolveConn resolve c)],
         some (resolveConn resolve c))) := by
  refine ⟨testApiConnectivity_snd_eq_find resolve ping profs conns, ?_, ?_⟩
  · intro hall
    have hnone := testApiConnectivity_none_of_all_fail resolve ping profs conns hall
    refine ⟨hnone, ?_⟩
    simp [validateAnalyzer, hnone]
  · intro l1 c l2 hsplit hfail hc
    subst hsplit
    have hnone := testApiConnectivity_none_of_all_fail resolve ping profs l1 hfail
    have hparts := hc
    unfold connVerified at hparts
    simp only [Bool.and_eq_true, Bool.not_eq_true'] at hparts
    obtain ⟨h4, ⟨⟨hB, hC⟩, hD⟩, _⟩ := hparts
    have haddrP : ¬ (resolveConn resolve c).ipAddress = "" := by
      intro hEq
      rw [hEq] at hB
      simp at hB
    have hfindP : ¬ (List.find? (fun p => p.ifaceId == c.ifaceId && p.isConnected)
        profs).isNone = true := by
      rcases Option.isSome_iff_exists.mp hD with ⟨q, hq⟩
      simp [hq]
    have hevents : connEvents resolve profs c =
        [VerifierEvent.resolved c, VerifierEvent.pinged (resolveConn resolve c)] := by
      unfold connEvents
      rw [if_pos h4, if_neg haddrP, if_neg (by simp [hC]), if_neg hfindP]
    rw [testApiConnectivity_append_of_none resolve ping profs l1 (c :: l2) hnone,
      testApiConnectivity_cons, if_pos hc]
    simp [hevents]

/-- Witness for `testApiConnectivity_first_success`: one IPv4 connection
with a matching connected profile and a successful probe is returned, with
the trace ending at its probe. -/
theorem testApiConnectivity_first_success_witness :
    testApiConnectivity sampleResolve samplePingTrue [sampleProfile] [sampleConn] =
      ((testApiConnectivity sampleResolve samplePingTrue [sampleProfile] []).1 ++
        [VerifierEvent.resolved sampleConn,
         VerifierEvent.pinged (resolveConn sampleResolve sampleConn)],
       some (resolveConn sampleResolve sampleConn)) :=
  (testApiConnectivity_first_success sampleResolve samplePingTrue [sampleProfile]
    [sampleConn]).2.2 [] sampleConn [] rfl (by simp) (by decide)

/-- C6: every address resolution, manual-skip diagnostic and probe the
verifier performs concerns a connection with at least one reachability
flag set; a record with `hasIpv4 = false` and `hasIpv6 = false` is inert. -/
theorem verifier_touches_only_reachable (resolve : NetConnectivity → String × Bool)
    (ping : NetConnectivity → Bool) (profs : List ConnectionProfile) :
    ∀ (conns : List NetConnectivity) (ev : VerifierEvent),
      ev ∈ (testApiConnectivity resolve ping profs conns).1 →
      (ev.conn.hasIpv4 || ev.conn.hasIpv6) = true
  | [], ev, h => by simp [testApiConnectivity] at h
  | c :: rest, ev, h => by
    have hev : ∀ e ∈ connEvents resolve profs c, (e.conn.hasIpv4 || e.conn.hasIpv6) = true := by
      intro e he
      unfold connEvents at he
      by_cases h4 : (c.hasIpv4 || c.hasIpv6) = true
      · rw [if_pos h4] at he
        have hc1 : ((resolveConn resolve c).hasIpv4 || (resolveConn resolve c).hasIpv6)
            = true := by simpa [resolveConn] using h4
        split at he
        · simp at he
          subst he
          exact h4
        · split at he
          · rcases List.mem_cons.mp he with rfl | he2
            · exact h4
            · simp at he2
              subst he2
              exact hc1
          · split at he
            · simp at he
              subst he
              exact h4
            · rcases List.mem_cons.mp he with rfl | he2
              · exact h4
              · simp at he2
                subst he2
                exact hc1
      · rw [if_neg h4] at he
        simp at he
    rw [testApiConnectivity_cons] at h
    by_cases hc : connVerified resolve ping profs c = true
    · rw [if_pos hc] at h
      exact hev ev h
    · rw [if_neg hc] at h
      simp only [List.mem_append] at h
      rcases h with h | h
      · exact hev ev h
      · exact verifier_touches_only_reachable resolve ping profs rest ev h

/-- Witness for `verifier_touches_only_reachable`: the resolution event of
the sample connection. -/
theorem verifier_touches_only_reachable_witness :
    (((VerifierEvent.resolved sampleConn).conn.hasIpv4 ||
      (VerifierEvent.resolved sampleConn).conn.hasIpv6)) = true :=
  verifier_touches_only_reachable sampleResolve samplePingTrue [sampleProfile]
    [sampleConn] (VerifierEvent.resolved sampleConn) (by decide)

/-- C7: a connection whose resolved address is manually assigned fails the
loop's acceptance test, is skipped with the console diagnostic (the
manual-skip event appears in the trace once the loop reaches it), is never
returned as the verified connection — whatever the probe would have
answered — and its presence does not change the verifier's result on the
remaining connections: no error is raised and later entries are still
tried. -/
theorem manual_address_connection_skipped (resolve : NetConnectivity → String × Bool)
    (ping : NetConnectivity → Bool) (profs : List ConnectionProfile)
    (l1 l2 : List NetConnectivity) (c : NetConnectivity)
    (h4 : (c.hasIpv4 || c.hasIpv6) = true)
    (haddr : (resolveConn resolve c).ipAddress ≠ "")
    (hman : (resolveConn resolve c).isManualAddress = true) :
    connVerified resolve ping profs c = false ∧
    (testApiConnectivity resolve ping profs (l1 ++ c :: l2)).2 =
      (testApiConnectivity resolve ping profs (l1 ++ l2)).2 ∧
    (testApiConnectivity resolve ping profs (l1 ++ c :: l2)).2 ≠
      some (resolveConn resolve c) ∧
    ((∀ x ∈ l1, connVerified resolve ping profs x = false) →
      VerifierEvent.manualSkip (resolveConn resolve c) ∈
        (testApiConnectivity resolve ping profs (l1 ++ c :: l2)).1) := by
  have hcfalse : connVerified resolve ping profs c = false := by
    unfold connVerified
    simp [hman]
  refine ⟨hcfalse, ?_, ?_, ?_⟩
  · rw [testApiConnectivity_snd_eq_find, testApiConnectivity_snd_eq_find,
      List.find?_append, List.find?_append, List.find?_cons_of_neg _ (by simp [hcfalse])]
  · intro habs
    rw [testApiConnectivity_snd_eq_find] at habs
    rcases Option.map_eq_some'.mp habs with ⟨x, hx, hupd⟩
    have hxv := List.find?_some hx
    have hxman : (resolveConn resolve x).isManualAddress = false := by
      unfold connVerified at hxv
      have := (Bool.and_eq_true _ _).mp hxv |>.2
      simp only [Bool.and_eq_true, Bool.not_eq_true'] at this
      exact this.1.1.2
    rw [hupd] at hxman
    rw [hman] at hxman
    cases hxman
  · intro hfail
    have hnone := testApiConnectivity_none_of_all_fail resolve ping profs l1 hfail
    rw [testApiConnectivity_append_of_none resolve ping profs l1 (c :: l2) hnone]
    have hevents : connEvents resolve profs c =
        [VerifierEvent.resolved c, VerifierEvent.manualSkip (resolveConn resolve c)] := by
      unfold connEvents
      rw [if_pos h4, if_neg haddr, if_pos hman]
    rw [testApiConnectivity_cons, if_neg (by simp [hcfalse])]
    simp [hevents]

/-- Witness for `manual_address_connection_skipped`: the sample connection
under a resolver that reports a manual address, with a probe that would
succeed. -/
theorem manual_address_connection_skipped_witness :
    connVerified sampleManualResolve samplePingTrue [sampleProfile] sampleConn = false ∧
    (testApiConnectivity sampleManualResolve samplePingTrue [sampleProfile]
      ([] ++ sampleConn :: [])).2 =
      (testApiConnectivity sampleManualResolve samplePingTrue [sampleProfile] ([] ++ [])).2 ∧
    (testApiConnectivity sampleManualResolve samplePingTrue [sampleProfile]
      ([] ++ sampleConn :: [])).2 ≠
      some (resolveConn sampleManualResolve sampleConn) ∧
    ((∀ x ∈ ([] : List NetConnectivity),
        connVerified sampleManualResolve samplePingTrue [sampleProfile] x = false) →
      VerifierEvent.manualSkip (resolveConn sampleManualResolve sampleConn) ∈
        (testApiConnectivity sampleManualResolve samplePingTrue [sampleProfile]
          ([] ++ sampleConn :: [])).1) :=
  manual_address_connection_skipped sampleManualResolve samplePingTrue [sampleProfile]
    [] [] sampleConn (by decide) (by decide) (by decide)

/-! ## Claim theorems for the profile correlator -/

theorem insertSortedByName_mem {x : ConnectionProfile} :
    ∀ {l : List ConnectionProfile} {p : ConnectionProfile},
      p ∈ insertSortedByName x l → p = x ∨ p ∈ l := by
  intro l
  induction l with
  | nil =>
    intro p hp
    simp [insertSortedByName] at hp
    exact Or.inl hp
  | cons h t ih =>
    intro p hp
    unfold insertSortedByName at hp
    split at hp
    · rcases List.mem_cons.mp hp with rfl | hp2
      · exact Or.inr (List.mem_cons_self _ _)
      · rcases ih hp2 with hx | ht
        · exact Or.inl hx
        · exact Or.inr (List.mem_cons_of_mem _ ht)
    · rcases List.mem_cons.mp hp with rfl | hp2
      · exact Or.inl rfl
      · exact Or.inr hp2

theorem sortByName_mem {p : ConnectionProfile} :
    ∀ {l : List ConnectionProfile}, p ∈ sortByName l → p ∈ l := by
  intro l
  induction l with
  | nil => intro h; simp [sortByName] at h
  | cons x rest ih =>
    intro hp
    unfold sortByName at hp
    rcases insertSortedByName_mem hp with rfl | hp2
    · exact List.mem_cons_self _ _
    · exact List.mem_cons_of_mem _ (ih hp2)

/-- The rename loop changes only names: the other profile fields stream
through unchanged, in order. -/
theorem dedupNamesGo_ssid (lastName : String) (seq : Nat) :
    ∀ l : List ConnectionProfile,
      (dedupNamesGo lastName seq l).map (fun p => p.wifiSsid) =
        l.map fun p => p.wifiSsid
  | [] => rfl
  | p :: rest => by
    unfold dedupNamesGo
    split
    · simp [dedupNamesGo_ssid lastName (seq + 1) rest]
    · simp [dedupNamesGo_ssid p.name 0 rest]

/-- C5: three profiles named `"Home"` run through the sort and the
deduplication pass come out named `"Home"`, `"Home1"`, `"Home2"`: the first
occurrence is unsuffixed and later duplicates get increasing suffixes
starting at 1. -/
theorem dedup_three_homes :
    ((dedupNames (sortByName
        [⟨"Home", "Home", .WPA2_PSK, "k1", "9", true⟩,
         ⟨"Home", "Home", .WPA2_PSK, "k2", "11", false⟩,
         ⟨"Home", "Home", .WPA2_PSK, "k3", "13", false⟩])).map fun p => p.name) =
      ["Home", "Home1", "Home2"] := by decide

/-- C4 is false on the code: when an input name collides with a name the
rename loop is about to fabricate, the returned collection has duplicate
names.  With input names `"Home"`, `"Home"`, `"Home1"` (already in sort
order) the pass returns `"Home"`, `"Home1"`, `"Home1"` — the renamed second
profile collides with the untouched third. -/
theorem dedup_name_collision :
    ((dedupNames (sortByName
        [⟨"Home", "Home", .WPA2_PSK, "k1", "9", true⟩,
         ⟨"Home", "Home", .WPA2_PSK, "k2", "11", false⟩,
         ⟨"Home1", "Home1", .WPA2_PSK, "k3", "13", false⟩])).map fun p => p.name) =
      ["Home", "Home1", "Home1"] ∧
    ¬ ((dedupNames (sortByName
        [⟨"Home", "Home", .WPA2_PSK, "k1", "9", true⟩,
         ⟨"Home", "Home", .WPA2_PSK, "k2", "11", false⟩,
         ⟨"Home1", "Home1", .WPA2_PSK, "k3", "13", false⟩])).map fun p => p.name).Nodup := by
  constructor
  · decide
  · decide

/-- C10: the profile list `validateAnalyzer` returns contains only profiles
with a non-empty `wifiSsid` — the `filter(p => p.wifiSsid)` step survives
the sort and the rename pass — while `getProfiles()` after a run does
contain, for every ethernet connection, a synthesized profile whose
`wifiSsid` is empty. -/
theorem validateAnalyzer_drops_wired (resolve : NetConnectivity → String × Bool)
    (ping : NetConnectivity → Bool) (analyzerProfiles : List ConnectionProfile)
    (conns : List NetConnectivity) (ps : List ConnectionProfile) :
    (validateAnalyzer resolve ping analyzerProfiles conns = .ok ps →
      ∀ p ∈ ps, p.wifiSsid ≠ "") ∧
    (∀ (env : OsState) (includeWifi : Bool) (c : NetConnectivity),
      c ∈ env.connMap → c.ifaceType = "ethernet" →
      ethProfileOf c ∈ getProfiles (runAnalyzer env includeWifi initAnalyzer) ∧
      (ethProfileOf c).wifiSsid = "") := by
  constructor
  · intro hok p hp
    unfold validateAnalyzer at hok
    rcases hsnd : (testApiConnectivity resolve ping analyzerProfiles conns).2 with _ | conn
    · simp only [hsnd] at hok
      cases hok
    · simp only [hsnd] at hok
      rcases hfind : analyzerProfiles.find? fun q =>
          q.ifaceId == conn.ifaceId && q.isConnected with _ | q
      · simp only [hfind] at hok
        cases hok
      · simp only [hfind] at hok
        injection hok with hok'
        rw [← hok'] at hp
        have hssid : p.wifiSsid ∈ (dedupNames (sortByName
            (analyzerProfiles.filter fun q => !(q.wifiSsid == "")))).map
              fun q => q.wifiSsid :=
          List.mem_map_of_mem _ hp
        rw [dedupNames, dedupNamesGo_ssid] at hssid
        rcases List.mem_map.mp hssid with ⟨q2, hq2, hqe⟩
        have hqf := sortByName_mem hq2
        have hflt := List.of_mem_filter hqf
        intro habs
        rw [hqe, habs] at hflt
        simp at hflt
  · intro env includeWifi c hc htype
    refine ⟨?_, rfl⟩
    unfold getProfiles runAnalyzer
    simp only []
    refine List.mem_append_right _ ?_
    refine List.mem_map_of_mem _ ?_
    rw [List.mem_filter]
    exact ⟨hc, by simp [htype]⟩

/-- Witness for `validateAnalyzer_drops_wired`: on the wired-only machine
the analyzer's profile list contains the synthesized wired profile (empty
SSID), and `validateAnalyzer` — its connectivity check passing through that
very connection — returns the empty list. -/
theorem validateAnalyzer_drops_wired_witness :
    (∀ p ∈ ([] : List ConnectionProfile), p.wifiSsid ≠ "") ∧
    (ethProfileOf ethConn ∈ getProfiles (runAnalyzer sampleOs true initAnalyzer) ∧
      (ethProfileOf ethConn).wifiSsid = "") :=
  ⟨(validateAnalyzer_drops_wired sampleResolve samplePingTrue
      (getProfiles (runAnalyzer sampleOs true initAnalyzer)) [ethConn] []).1 (by decide),
   (validateAnalyzer_drops_wired sampleResolve samplePingTrue
      (getProfiles (runAnalyzer sampleOs true initAnalyzer)) [ethConn] []).2
      sampleOs true ethConn (by decide) (by decide)⟩

/-- C9: `run()` is not idempotent.  It rebuilds `connMap` from scratch but
never clears `this.profiles`, so running a fresh analyzer twice against the
same OS state doubles the profile list: the second run appends a copy of
every discovered profile (identical up to the `isConnected` flag, which the
wlan matching pass only sets on the first matching — i.e. first-run —
copy). -/
theorem run_twice_duplicates_profiles (env : OsState) (includeWifi : Bool) :
    (runAnalyzer env includeWifi (runAnalyzer env includeWifi initAnalyzer)).connMap =
      (runAnalyzer env includeWifi initAnalyzer).connMap ∧
    (getProfiles (runAnalyzer env includeWifi (runAnalyzer env includeWifi initAnalyzer))).length =
      2 * (getProfiles (runAnalyzer env includeWifi initAnalyzer)).length ∧
    (getProfiles (runAnalyzer env includeWifi
        (runAnalyzer env includeWifi initAnalyzer))).map profileData =
      (getProfiles (runAnalyzer env includeWifi initAnalyzer)).map profileData ++
        (getProfiles (runAnalyzer env includeWifi initAnalyzer)).map profileData := by
  have hdata : (getProfiles (runAnalyzer env includeWifi
      (runAnalyzer env includeWifi initAnalyzer))).map profileData =
      (getProfiles (runAnalyzer env includeWifi initAnalyzer)).map profileData ++
        (getProfiles (runAnalyzer env includeWifi initAnalyzer)).map profileData := by
    unfold getProfiles runAnalyzer initAnalyzer
    by_cases hw : includeWifi
    · simp only [hw, if_pos]
      rw [List.map_append, List.map_append, readWlanInterfaces_data,
        readWlanInterfaces_data, List.map_append, List.map_append]
      simp [readWlanInterfaces_data]
    · simp [hw]
  refine ⟨rfl, ?_, hdata⟩
  have hlen := congrArg List.length hdata
  simpa [Nat.two_mul] using hlen

end Migrator
